import Mathlib

/-!
# Verification of the City-Eater tactical engine

Shallow embedding of the game engine found in `src/` (MapManager, TurnManager,
CombatManager, DataManager, FireManager/GameState, FireMarker, TerrainTypes),
together with theorems settling the specification claims.

JavaScript values are modelled as follows: numeric movement costs become the
inductive `MC` (`imp` for the sentinel -1, `fin n` for an ordinary cost,
`inf` for the JS `Infinity` used by the fording rule); object maps keyed by
node id become association lists or `List GNode` with `find?`; `null` unit
arguments become `Option` values.  Unknown terrain-type strings all behave
exactly like the `default` entry of the TerrainTypes table (every lookup of
an unknown key falls back to `default`, and every string comparison against
the known names fails), so they are collapsed into the single constructor
`Terrain.defaultT`; the same holds for unit-type strings that the code never
compares against (collapsed into `UnitType.otherU`).
-/

set_option maxHeartbeats 1000000

namespace CityEater

/-- Terrain classifications from `TerrainTypes.js`.  `defaultT` stands for the
`default` entry and for every string absent from the table. -/
inductive Terrain where
  | street | park | lowBuilding | highBuilding | bridge | tunnel | river
  | rubble | defaultT
  deriving DecidableEq, Repr

/-- Unit-type strings that the engine compares against.  `otherU` stands for
every other string (e.g. `tank`, `populace`), all of which hit the `default`
branches of the switches in `TerrainTypes.js`. -/
inductive UnitType where
  | monster | armor | artillery | infantry | police | helicopter | fireboat
  | firemen | otherU
  deriving DecidableEq, Repr

/-- `TerrainTypes.<type>.movementCost` from `TerrainTypes.js`. -/
def baseMovementCost : Terrain → Nat
  | .street => 1
  | .park => 2
  | .lowBuilding => 3
  | .highBuilding => 3
  | .bridge => 1
  | .tunnel => 1
  | .river => 1
  | .rubble => 2
  | .defaultT => 1

/-- `TerrainTypes.isPassable(terrainType, unitType)`: the switch on the unit
type; a `null`/unknown unit type takes the default branch (passable). -/
def isPassable (t : Terrain) (u : Option UnitType) : Bool :=
  match u with
  | some .monster => !(t = .lowBuilding || t = .highBuilding)
  | some .armor => !(t = .lowBuilding || t = .highBuilding)
  | some .artillery => !(t = .lowBuilding || t = .highBuilding)
  | some .infantry => true
  | some .police => true
  | some .helicopter => true
  | some .fireboat => t = .river
  | _ => true

/-- Movement-cost values as produced by the JS code: `-1` (impassable),
a finite number, or `Infinity` (the fording sentinel). -/
inductive MC where
  | imp
  | fin (n : Nat)
  | inf
  deriving DecidableEq, Repr

/-- `TerrainTypes.getMovementCost(terrainType, unitType)`. -/
def getMovementCost (t : Terrain) (u : Option UnitType) : MC :=
  if !isPassable t u then .imp
  else match u with
    | some .helicopter => .fin 1
    | some .monster => if t = .river then .fin 2 else .fin (baseMovementCost t)
    | _ => .fin (baseMovementCost t)

/-- A map node as built by `MapManager.setupNodes`: id, coordinates,
adjacency list and terrain classification. -/
structure GNode where
  id : Nat
  x : Int
  y : Int
  adjacentNodes : List Nat
  terrainType : Terrain
  deriving DecidableEq, Repr

/-- The `this.nodes` collection of `MapManager` (object keyed by node id,
with unique keys). -/
abbrev GameMap := List GNode

/-- `this.nodes[nodeId]` lookup. -/
def getNodeM (g : GameMap) (i : Nat) : Option GNode :=
  g.find? (fun n => n.id = i)

/-- `MapManager.getAdjacentNodes(nodeId)`: maps the adjacency ids to node
objects and filters out missing ones. -/
def getAdjacentNodes (g : GameMap) (i : Nat) : List GNode :=
  match getNodeM g i with
  | none => []
  | some n => n.adjacentNodes.filterMap (getNodeM g)

/-- `MapManager.isBridgeOverRiver`: the source is a stub returning `false`. -/
def isBridgeOverRiver (_fromId _toId : Nat) : Bool := false

/-- `MapManager.isTunnelUnderRiver`: the source is a stub returning `false`. -/
def isTunnelUnderRiver (_fromId _toId : Nat) : Bool := false

/-- `MapManager.checkSpecialMovementCases(fromNodeId, toNodeId, unitType)`:
the infantry fording rules return `Infinity`; the bridge/tunnel overlap
branches are dead because the overlap predicates are stubs. -/
def checkSpecialMovementCases (fromN toN : GNode) (u : Option UnitType) :
    Option MC :=
  if fromN.terrainType ≠ .river ∧ toN.terrainType = .river ∧ u = some .infantry then
    some .inf
  else if fromN.terrainType = .river ∧ toN.terrainType ≠ .river ∧ u = some .infantry then
    some .inf
  else if isBridgeOverRiver fromN.id toN.id then
    some (getMovementCost .river u)
  else if isTunnelUnderRiver fromN.id toN.id then
    some (getMovementCost .tunnel u)
  else
    none

/-- `MapManager.calculateMovementCost(fromNodeId, toNodeId, unit)`. -/
def calculateMovementCost (g : GameMap) (fromId toId : Nat)
    (u : Option UnitType) : MC :=
  match getNodeM g fromId, getNodeM g toId with
  | some fromN, some toN =>
    if toId ∈ fromN.adjacentNodes then
      match checkSpecialMovementCases fromN toN u with
      | some c => c
      | none => getMovementCost toN.terrainType u
    else .imp
  | _, _ => .imp

/-- `adjNode.adjacentNodes.push(parseInt(nodeId))`: append `v` to the
adjacency list of the node keyed `i`. -/
def pushAdjFn (i v : Nat) (n : GNode) : GNode :=
  if n.id = i then { n with adjacentNodes := n.adjacentNodes ++ [v] } else n

def pushAdj (g : GameMap) (i v : Nat) : GameMap :=
  g.map (pushAdjFn i v)

/-- Inner loop of `MapManager.validateAdjacencies`: for each id in `l`
(the adjacency list of the node being processed, whose id is `i`), push the
reverse edge when it is missing; absent neighbours are skipped. -/
def repairStep (i : Nat) (g : GameMap) (adjId : Nat) : GameMap :=
  match getNodeM g adjId with
  | none => g
  | some adjN => if i ∈ adjN.adjacentNodes then g else pushAdj g adjId i

def repairNeighbors (i : Nat) (g : GameMap) (l : List Nat) : GameMap :=
  l.foldl (repairStep i) g

/-- One iteration of the outer `for (const nodeId in this.nodes)` loop of
`validateAdjacencies`. -/
def processNode (g : GameMap) (i : Nat) : GameMap :=
  match getNodeM g i with
  | none => g
  | some node => repairNeighbors i g node.adjacentNodes

/-- `MapManager.validateAdjacencies` (the repair pass; the degree check only
logs warnings and does not change state). -/
def validateAdjacencies (g : GameMap) : GameMap :=
  (g.map (·.id)).foldl processNode g

/-- Node `a` is present in the map. -/
def present (g : GameMap) (a : Nat) : Prop := (getNodeM g a).isSome

instance (g : GameMap) (a : Nat) : Decidable (present g a) := by
  unfold present; infer_instance

/-- Node `a` lists `b` as a neighbour. -/
def memAdj (g : GameMap) (a b : Nat) : Prop :=
  ∃ n, getNodeM g a = some n ∧ b ∈ n.adjacentNodes

/-- JS `Map.get` on the `visited` map. -/
def lookupA (m : List (Nat × Nat)) (k : Nat) : Option Nat :=
  (m.find? (fun p => p.1 = k)).map (·.2)

/-- JS `Map.set` on the `visited` map (overwrite or append). -/
def setA (m : List (Nat × Nat)) (k v : Nat) : List (Nat × Nat) :=
  match m with
  | [] => [(k, v)]
  | (k', v') :: rest => if k' = k then (k, v) :: rest else (k', v') :: setA rest k v

/-- The `specialMovement` tags used by `findReachableNodes`. -/
inductive SpecialMove where
  | fordingRiver | allPointsMove
  deriving DecidableEq, Repr

/-- An entry of the array returned by `MapManager.findReachableNodes`
(the redundant `x`/`y` display copies of the node coordinates are omitted;
`remainingPoints` is absent on the start entry). -/
structure RNode where
  id : Nat
  cost : Nat
  remainingPoints : Option Nat
  terrainType : Terrain
  specialMovement : Option SpecialMove
  deriving DecidableEq, Repr

/-- The mutable state of the `findReachableNodes` search loop. -/
structure FrnState where
  visited : List (Nat × Nat)
  result : List RNode
  queue : List (Nat × Nat)
  deriving DecidableEq, Repr

/-- Processing of one adjacent node inside the `findReachableNodes` loop. -/
def frnStep (g : GameMap) (u : Option UnitType) (startId mp c rem : Nat)
    (currentCost : Nat) (st : FrnState) (next : GNode) : FrnState :=
  match calculateMovementCost g c next.id u with
  | .inf =>
    if rem = mp ∧ c = startId then
      { st with
        visited := setA st.visited next.id mp,
        result := st.result ++
          [⟨next.id, mp, some 0, next.terrainType, some .fordingRiver⟩] }
    else st
  | .imp => st
  | .fin n =>
    if n > rem then st
    else
      let newCost := currentCost + n
      let newRem := rem - n
      let keep := match lookupA st.visited next.id with
        | none => true
        | some v => decide (newCost < v)
      if keep then
        { visited := setA st.visited next.id newCost,
          result := st.result ++
            [⟨next.id, newCost, some newRem, next.terrainType, none⟩],
          queue := if newRem > 0 then st.queue ++ [(next.id, newRem)]
                   else st.queue }
      else st

/-- Processing of one dequeued entry of the `findReachableNodes` loop:
read the current cost once, then fold over the adjacent nodes. -/
def frnVisit (g : GameMap) (u : Option UnitType) (startId mp c rem : Nat)
    (st : FrnState) : FrnState :=
  let currentCost := (lookupA st.visited c).getD 0
  (getAdjacentNodes g c).foldl (frnStep g u startId mp c rem currentCost) st

/-- The `while (queue.length > 0)` loop of `findReachableNodes`, with an
explicit fuel. The JS loop terminates because a node is re-queued only on a
strict cost improvement; the fuel supplied by `findReachableNodes` is more
than enough for the inputs the claims are about. -/
def frnLoop (g : GameMap) (u : Option UnitType) (startId mp : Nat) :
    Nat → FrnState → FrnState
  | 0, st => st
  | fuel + 1, st =>
    match st.queue with
    | [] => st
    | (c, rem) :: rest =>
      frnLoop g u startId mp fuel
        (frnVisit g u startId mp c rem { st with queue := rest })

/-- The rule-5.15 pass at the end of `findReachableNodes`: when a unit object
is supplied, an unvisited adjacent node whose cost exceeds the budget (and on
the JS side also the `Infinity` fording sentinel, since `Infinity > x` holds)
is entered by expending all movement points. -/
def frnAllPoints (g : GameMap) (u : Option UnitType) (startId mp : Nat)
    (st : FrnState) : FrnState :=
  match u with
  | none => st
  | some _ =>
    (getAdjacentNodes g startId).foldl (fun st adjNode =>
      if (lookupA st.visited adjNode.id).isSome then st
      else
        match calculateMovementCost g startId adjNode.id u with
        | .imp => st
        | .fin n =>
          if n > 0 ∧ n > mp then
            { st with
              visited := setA st.visited adjNode.id mp,
              result := st.result ++
                [⟨adjNode.id, mp, some 0, adjNode.terrainType,
                  some .allPointsMove⟩] }
          else st
        | .inf =>
          { st with
            visited := setA st.visited adjNode.id mp,
            result := st.result ++
              [⟨adjNode.id, mp, some 0, adjNode.terrainType,
                some .allPointsMove⟩] }) st

/-- `MapManager.findReachableNodes(startNodeId, movementPoints, unit)`. -/
def findReachableNodes (g : GameMap) (startId mp : Nat)
    (u : Option UnitType) : List RNode :=
  match getNodeM g startId with
  | none => []
  | some startNode =>
    let st0 : FrnState :=
      { visited := [(startId, 0)],
        result := [⟨startId, 0, none, startNode.terrainType, none⟩],
        queue := [(startId, mp)] }
    (frnAllPoints g u startId mp
      (frnLoop g u startId mp ((mp + 1) * (g.length + 1) + 1) st0)).result

/-- `gScore` values of the A* search.  In the source these are JS numbers,
but the only values that arise are sums of integer movement costs starting
from 0, plus the `Infinity` produced by a fording step, so `Nat` plus an
infinity constructor models them exactly (float addition is exact on these
integers). -/
inductive GVal where
  | gfin (n : Nat)
  | ginf
  deriving DecidableEq, Repr

/-- `gScore[current] + moveCost` (JS addition, where anything plus
`Infinity` is `Infinity`). -/
def gvalAdd : GVal → GVal → GVal
  | .gfin a, .gfin b => .gfin (a + b)
  | _, _ => .ginf

/-- The JS `<` on `gScore` values. -/
def gvalLt : GVal → GVal → Bool
  | .gfin a, .gfin b => a < b
  | .gfin _, .ginf => true
  | .ginf, _ => false

/-- JS truthiness of `gScore[n]`: `undefined` and `0` are falsy. -/
def gTruthy : Option GVal → Bool
  | none => false
  | some (.gfin n) => n ≠ 0
  | some .ginf => true

/-- `tentative < gScore[n]` where an `undefined` right-hand side makes the
JS comparison false. -/
def gvalLtO (t : GVal) : Option GVal → Bool
  | none => false
  | some v => gvalLt t v

/-- A finite heuristic value as an exact fraction with positive denominator.
Every finite JS float is such a fraction.  (The source adds these floats with
rounding; the embedding adds them exactly.  The `findPath` theorems below
quantify over the heuristic and use only the fact that the selected node is a
member of the open set, which holds under either arithmetic.) -/
structure Frac where
  num : Int
  den : Int
  deriving DecidableEq, Repr

/-- Comparison of fractions by cross multiplication (exact for positive
denominators). -/
def fracLt (a b : Frac) : Bool := a.num * b.den < b.num * a.den

/-- `fScore` values: `gScore + heuristic`, finite or `Infinity`. -/
inductive FSVal where
  | ffin (q : Frac)
  | finf
  deriving DecidableEq, Repr

/-- `gScore[n] + heuristic(n, end)` as stored into `fScore`. -/
def fsAdd : GVal → Frac → FSVal
  | .gfin n, h => .ffin ⟨n * h.den + h.num, h.den⟩
  | .ginf, _ => .finf

/-- The JS `<` on `fScore` values. -/
def fsLt : FSVal → FSVal → Bool
  | .ffin a, .ffin b => fracLt a b
  | .ffin _, .finf => true
  | .finf, _ => false

/-- Polymorphic association-list lookup (JS object indexing). -/
def lookupP {α : Type} (m : List (Nat × α)) (k : Nat) : Option α :=
  (m.find? (fun p => p.1 = k)).map (·.2)

/-- Polymorphic association-list overwrite (JS object assignment). -/
def setP {α : Type} (m : List (Nat × α)) (k : Nat) (v : α) : List (Nat × α) :=
  match m with
  | [] => [(k, v)]
  | (k', v') :: rest => if k' = k then (k, v) :: rest else (k', v') :: setP rest k v

/-- The mutable state of the `findPath` A* loop. -/
structure FPState where
  openSet : List Nat
  closedSet : List Nat
  cameFrom : List (Nat × Nat)
  gScore : List (Nat × GVal)
  fScore : List (Nat × FSVal)
  deriving DecidableEq, Repr

/-- The `openSet.reduce(...)` argmin over `fScore`, seeded with the first
open node; an `undefined` score on either side keeps the current lowest. -/
def chooseCurrent (fS : List (Nat × FSVal)) (openSet : List Nat) : Nat :=
  match openSet with
  | [] => 0
  | x :: _ =>
    openSet.foldl (fun lowest nodeId =>
      match lookupP fS nodeId, lookupP fS lowest with
      | some a, some b => if fsLt a b then nodeId else lowest
      | _, _ => lowest) x

/-- Processing of one neighbour of `current` inside the `findPath` loop.
`gScore[current]` is always present on states reachable from the `findPath`
entry (the start is seeded and every enqueued node is scored), so the
`getD` default is never consulted. -/
def fpStep (g : GameMap) (hfn : GNode → GNode → Frac) (u : Option UnitType)
    (endNode : GNode) (c : Nat) (st : FPState) (neighbor : GNode) : FPState :=
  if neighbor.id ∈ st.closedSet then st
  else
    match calculateMovementCost g c neighbor.id u with
    | .imp => st
    | mc =>
      let mcf : GVal := match mc with
        | .fin n => .gfin n
        | _ => .ginf
      let tentative := gvalAdd ((lookupP st.gScore c).getD (.gfin 0)) mcf
      if !gTruthy (lookupP st.gScore neighbor.id) ||
          gvalLtO tentative (lookupP st.gScore neighbor.id) then
        { st with
          cameFrom := setA st.cameFrom neighbor.id c,
          gScore := setP st.gScore neighbor.id tentative,
          fScore := setP st.fScore neighbor.id
            (fsAdd tentative (hfn neighbor endNode)),
          openSet := if neighbor.id ∈ st.openSet then st.openSet
                     else st.openSet ++ [neighbor.id] }
      else st

/-- One dequeue-and-expand step of `findPath`: remove `current` from the open
set, close it, and process its neighbours. -/
def fpVisit (g : GameMap) (hfn : GNode → GNode → Frac) (u : Option UnitType)
    (endNode : GNode) (c : Nat) (st : FPState) : FPState :=
  (getAdjacentNodes g c).foldl (fpStep g hfn u endNode c)
    { st with openSet := st.openSet.erase c, closedSet := c :: st.closedSet }

/-- The `while (cameFrom[current] && safetyCounter < MAX_ITERATIONS)` walk of
`MapManager.reconstructPath`, with its cycle check and 100-step cap. -/
def rpGo (cameFrom : List (Nat × Nat)) :
    Nat → Nat → List Nat → List Nat → List Nat
  | 0, _, path, _ => path
  | fuel + 1, cur, path, vis =>
    match lookupA cameFrom cur with
    | none => path
    | some prev =>
      if prev ∈ vis then path
      else rpGo cameFrom fuel prev (prev :: path) (prev :: vis)

/-- `MapManager.reconstructPath(cameFrom, current)`. -/
def reconstructPath (cameFrom : List (Nat × Nat)) (current : Nat) : List Nat :=
  rpGo cameFrom 100 current [current] [current]

/-- The `findPath` A* loop with its `MAX_ITERATIONS = 1000` iteration cap;
running out of iterations returns the empty path, as in the source. -/
def fpLoop (g : GameMap) (hfn : GNode → GNode → Frac) (u : Option UnitType)
    (endId : Nat) (endNode : GNode) : Nat → FPState → List Nat
  | 0, _ => []
  | fuel + 1, st =>
    if st.openSet = [] then []
    else
      let current := chooseCurrent st.fScore st.openSet
      if current = endId then reconstructPath st.cameFrom current
      else fpLoop g hfn u endId endNode fuel (fpVisit g hfn u endNode current st)

/-- `MapManager.findPath(startNodeId, endNodeId, unit)`.  The straight-line
`heuristic` computes with JS floats from the node coordinates; it is taken
here as a parameter `hfn` valued in exact fractions (every finite float is
such a fraction), so theorems quantified over `hfn` cover the source's
heuristic. -/
def findPath (g : GameMap) (hfn : GNode → GNode → Frac) (u : Option UnitType)
    (startId endId : Nat) : List Nat :=
  match getNodeM g startId, getNodeM g endId with
  | some startNode, some endNode =>
    if startId = endId then [startId]
    else
      fpLoop g hfn u endId endNode 1000
        { openSet := [startId], closedSet := [], cameFrom := [],
          gScore := [(startId, .gfin 0)],
          fScore := [(startId, .ffin (hfn startNode endNode))] }
  | _, _ => []

/-- Two node ids joined by an edge of the map graph: `a` is present, `b` is
present, and `a` lists `b` as a neighbour. -/
def Adjacent (g : GameMap) (a b : Nat) : Prop :=
  ∃ na nb, getNodeM g a = some na ∧ getNodeM g b = some nb ∧
    b ∈ na.adjacentNodes

/-- Graph reachability along `Adjacent` edges. -/
def Reach (g : GameMap) (s e : Nat) : Prop :=
  Relation.ReflTransGen (Adjacent g) s e

/-- The cumulative movement cost of a node-id sequence (cost of entering each
node after the first); `none` when a hop is impassable, missing, or one of
the special `Infinity` steps. -/
def pathCost (g : GameMap) (u : Option UnitType) : List Nat → Option Nat
  | [] => some 0
  | [_] => some 0
  | a :: b :: rest =>
    match calculateMovementCost g a b u, pathCost g u (b :: rest) with
    | .fin n, some m => some (n + m)
    | _, _ => none

/-- Loop invariant of the A* search: every recorded `cameFrom` edge is a
graph edge, and every open node is graph-reachable from the start. -/
def StInv (g : GameMap) (s : Nat) (st : FPState) : Prop :=
  (∀ n c, lookupA st.cameFrom n = some c → Adjacent g c n) ∧
  (∀ n, n ∈ st.openSet → Reach g s n)

/-- A three-node street line 1 – 2 – 3, used to exercise `findPath`. -/
def mapLine3 : GameMap :=
  [⟨1, 0, 0, [2], .street⟩, ⟨2, 100, 0, [1, 3], .street⟩,
   ⟨3, 200, 0, [2], .street⟩]

/-- The two players of `TurnManager`. -/
inductive Player where
  | monster | human
  deriving DecidableEq, Repr

/-- The sub-phases / action types of `TurnManager` (`fire-control` is written
`fireControl`). -/
inductive ActionType where
  | movement | combat | destruction | fireControl
  deriving DecidableEq, Repr

/-- A JS action counter: a number or `Infinity`. -/
inductive ACount where
  | num (n : Nat)
  | infin
  deriving DecidableEq, Repr

/-- `counter > 0` (the negation of the `<= 0` check); `Infinity` is positive. -/
def acPos : ACount → Bool
  | .num n => 0 < n
  | .infin => true

/-- The `--` decrement; `Infinity` stays `Infinity` in JS. -/
def acDec : ACount → ACount
  | .num n => .num (n - 1)
  | .infin => .infin

/-- The `actionsRemaining` object of `TurnManager`. -/
structure Actions where
  movement : ACount
  combat : ACount
  destruction : ACount
  fireControl : ACount
  deriving DecidableEq, Repr

def Actions.get (a : Actions) : ActionType → ACount
  | .movement => a.movement
  | .combat => a.combat
  | .destruction => a.destruction
  | .fireControl => a.fireControl

def Actions.set (a : Actions) : ActionType → ACount → Actions
  | .movement, v => { a with movement := v }
  | .combat, v => { a with combat := v }
  | .destruction, v => { a with destruction := v }
  | .fireControl, v => { a with fireControl := v }

/-- `this.actionLimits`: movement/combat/fire-control are unlimited,
destruction is capped at 3 per turn. -/
def actionLimits : Actions :=
  ⟨.infin, .infin, .num 3, .infin⟩

/-- The constructor's initial `actionsRemaining` object. -/
def ctorActions : Actions :=
  ⟨.num 0, .num 0, .num 3, .num 0⟩

/-- The turn-tracking state of `TurnManager`. -/
structure TurnState where
  currentTurn : Nat
  currentPhase : Player
  currentSubPhase : ActionType
  actionsRemaining : Actions
  readyToAdvance : Bool
  deriving DecidableEq, Repr

/-- The state set up by the `TurnManager` constructor. -/
def newTurnManager : TurnState :=
  { currentTurn := 1, currentPhase := .monster, currentSubPhase := .movement,
    actionsRemaining := ctorActions, readyToAdvance := false }

/-- `TurnManager.resetActions`. -/
def resetActions (s : TurnState) : TurnState :=
  { s with actionsRemaining := actionLimits, readyToAdvance := false }

/-- `TurnManager.resetActionsForCurrentSubPhase`. -/
def resetActionsForCurrentSubPhase (s : TurnState) : TurnState :=
  { s with
    actionsRemaining := s.actionsRemaining.set s.currentSubPhase
      (actionLimits.get s.currentSubPhase),
    readyToAdvance := false }

/-- `TurnManager.startGame` (UI and events elided). -/
def startGame (s : TurnState) : TurnState :=
  resetActions
    { s with currentTurn := 1, currentPhase := .monster,
             currentSubPhase := .movement }

/-- The sub-phase lists `monsterPhases` / `humanPhases`. -/
def phasesFor : Player → List ActionType
  | .monster => [.movement, .combat, .destruction]
  | .human => [.movement, .combat, .fireControl]

/-- `TurnManager.nextTurn` (movement-point resets of the entities and events
elided; they do not touch the turn-tracking state). -/
def nextTurn (s : TurnState) : TurnState :=
  match s.currentPhase with
  | .monster =>
    resetActions { s with currentPhase := .human, currentSubPhase := .movement }
  | .human =>
    resetActions
      { s with currentPhase := .monster, currentSubPhase := .movement,
               currentTurn := s.currentTurn + 1 }

/-- `TurnManager.endCurrentTurn`. -/
def endCurrentTurn (s : TurnState) : TurnState := nextTurn s

/-- `TurnManager.nextSubPhase`: advance within the phase list (JS `indexOf`
yields -1 when the sub-phase is missing) or end the turn. -/
def nextSubPhase (s : TurnState) : TurnState :=
  let phases := phasesFor s.currentPhase
  let currentIndex : Int :=
    if s.currentSubPhase ∈ phases then (phases.indexOf s.currentSubPhase : Int)
    else -1
  if currentIndex < (phases.length : Int) - 1 then
    resetActionsForCurrentSubPhase
      { s with currentSubPhase :=
          phases.getD (currentIndex + 1).toNat .movement }
  else endCurrentTurn s

/-- `TurnManager.endCurrentSubPhase` (sub-phase end effects are empty). -/
def endCurrentSubPhase (s : TurnState) : TurnState := nextSubPhase s

/-- `TurnManager.canPerformAction(actionType)`. -/
def canPerformAction (s : TurnState) (t : ActionType) : Bool :=
  s.currentSubPhase = t && acPos (s.actionsRemaining.get t)

/-- `TurnManager.consumeAction(actionType)`: the returned flag is the JS
return value, the state is the updated manager. -/
def consumeAction (s : TurnState) (t : ActionType) : Bool × TurnState :=
  if !canPerformAction s t then (false, s)
  else
    (true,
      { s with actionsRemaining :=
          s.actionsRemaining.set t (acDec (s.actionsRemaining.get t)) })

/-- `TurnManager.onDestructionCompleted(successful)`: only successful
destruction attempts consume an action; an exhausted counter sets the
`readyToAdvance` flag. -/
def onDestructionCompleted (s : TurnState) (successful : Bool) : TurnState :=
  let s' := if successful then (consumeAction s .destruction).2 else s
  if acPos (s'.actionsRemaining.get .destruction) then s'
  else { s' with readyToAdvance := true }

/-- The engine state at the start of the monster's destruction sub-phase on
turn 1 (constructor, `startGame`, then two completed sub-phases). -/
def destructionPhaseStart : TurnState :=
  endCurrentSubPhase (endCurrentSubPhase (startGame newTurnManager))

/-- The victory conditions of `GameState.checkVictoryConditions`. -/
inductive VictoryCondition where
  | victoryPoints | monsterDefeated | humansDefeated | maxTurnsReached
  deriving DecidableEq, Repr

/-- The slice of `GameState` consulted by `checkVictoryConditions`:
victory points, the scenario configuration, the registered-monster count
(`this.monsters.size`) and the faction of each registered unit. -/
structure VState where
  vpMonster : Nat
  vpHuman : Nat
  victoryPointGoal : Nat
  maxTurns : Nat
  currentTurn : Nat
  monstersCount : Nat
  unitFactions : List Player
  deriving DecidableEq, Repr

/-- `GameState.getHumanUnitCount`. -/
def getHumanUnitCount (s : VState) : Nat :=
  (s.unitFactions.filter (fun f => f = .human)).length

/-- `GameState.checkVictoryConditions` (`endGame` packages the winner and the
condition; the scene transition is elided). -/
def checkVictoryConditions (s : VState) : Option (Player × VictoryCondition) :=
  if s.vpMonster ≥ s.victoryPointGoal then some (.monster, .victoryPoints)
  else if s.monstersCount = 0 then some (.human, .monsterDefeated)
  else if getHumanUnitCount s = 0 then some (.monster, .humansDefeated)
  else if s.currentTurn > s.maxTurns then
    some (if s.vpMonster > s.vpHuman then .monster else .human,
          .maxTurnsReached)
  else none

/-- The special abilities that `CombatManager.retreatUnit` and its callers
compare against. -/
inductive Ability where
  | waterOnly | flying | rangedAttack | fireBreathing
  deriving DecidableEq, Repr

/-- The slice of a combatant consulted by `CombatManager.retreatUnit`:
whether its constructor is `Monster`, its node, and its special abilities. -/
structure REntity where
  isMonster : Bool
  currentNodeId : Nat
  specialAbilities : List Ability
  deriving DecidableEq, Repr

/-- The outcome of `CombatManager.retreatUnit`. -/
inductive RetreatOutcome where
  | noNode
  | eliminated
  | movedTo (nodeId : Nat)
  deriving DecidableEq, Repr

/-- The eligible-retreat filter of `retreatUnit`: adjacent nodes that exist,
whose terrain is not rubble or high building, river only for `waterOnly`
units, and not occupied by the opposing faction (`getUnitsAtNode` /
`getMonstersAtNode` counts supplied as functions). -/
def retreatEligible (g : GameMap) (unitsAtCount monstersAtCount : Nat → Nat)
    (e : REntity) : List GNode :=
  match getNodeM g e.currentNodeId with
  | none => []
  | some cur =>
    (cur.adjacentNodes.filterMap (getNodeM g)).filter (fun node =>
      !(node.terrainType = .rubble || node.terrainType = .highBuilding) &&
      !(node.terrainType = .river &&
        !(e.specialAbilities.contains .waterOnly)) &&
      (if e.isMonster then unitsAtCount node.id = 0
       else monstersAtCount node.id = 0))

/-- `CombatManager.retreatUnit(unit)`.  `rand` is the `Math.random()` draw as
an exact fraction in `[0, 1)`; the retreat index is `⌊rand · length⌋`.  With
no eligible node the unit is destroyed (`destroyUnit`), whatever its faction;
the `noNode` outcomes are the code's early return for a missing current node
and the out-of-range index impossible for `rand ∈ [0, 1)`. -/
def retreatUnit (g : GameMap) (unitsAtCount monstersAtCount : Nat → Nat)
    (e : REntity) (rand : Frac) : RetreatOutcome :=
  match getNodeM g e.currentNodeId with
  | none => .noNode
  | some _ =>
    let eligible := retreatEligible g unitsAtCount monstersAtCount e
    if eligible.isEmpty then .eliminated
    else
      let idx := ((rand.num * eligible.length) / rand.den).toNat
      match eligible.get? idx with
      | some node => .movedTo node.id
      | none => .noNode

/-- `Phaser.Math.Clamp(intensity, 1, 3)` in the `FireMarker` constructor. -/
def clampIntensity (i : Int) : Int := min (max i 1) 3

/-- `FireMarker.increaseIntensity`: the new intensity and the returned flag
(no change at the maximum of 3). -/
def increaseIntensity (i : Nat) : Nat × Bool :=
  if 3 ≤ i then (i, false) else (i + 1, true)

/-- `FireMarker.extinguish(amount)`: `none` when the marker is destroyed
(`amount >= intensity`), otherwise the lowered intensity. -/
def extinguish (amount intensity : Nat) : Option Nat :=
  if intensity ≤ amount then none else some (intensity - amount)

/-- `FireManager.extinguishFire`: the amount handed to `fire.extinguish`,
raised by 1 for firemen and 2 for fireboats. -/
def effectiveExtinguishAmount (amount : Nat) (u : Option UnitType) : Nat :=
  amount + match u with
    | some .firemen => 1
    | some .fireboat => 2
    | _ => 0

/-- The combat-tables JSON consumed by `DataManager`: an `odds` array of
ratio columns and a `results` array of rows indexed by die face. -/
structure CombatTables where
  odds : List Int
  results : List (List String)
  deriving DecidableEq, Repr

/-- The per-side outcome codes of `DataManager.parseResult`. -/
inductive RCode where
  | cnone | retreat | eliminated | damage
  deriving DecidableEq, Repr

/-- A parsed combat outcome: independent defender and attacker codes. -/
structure Outcome where
  defender : RCode
  attacker : RCode
  deriving DecidableEq, Repr

/-- `DataManager.parseResult(result)`: the code table, with a no-effect
default for unknown strings. -/
def parseResult (r : String) : Outcome :=
  if r = "DE" then ⟨.eliminated, .cnone⟩
  else if r = "DR" then ⟨.retreat, .cnone⟩
  else if r = "DD" then ⟨.damage, .cnone⟩
  else if r = "NE" then ⟨.cnone, .cnone⟩
  else if r = "AD" then ⟨.cnone, .damage⟩
  else if r = "AR" then ⟨.cnone, .retreat⟩
  else if r = "AE" then ⟨.cnone, .eliminated⟩
  else if r = "EX" then ⟨.eliminated, .eliminated⟩
  else ⟨.cnone, .cnone⟩

/-- The odds ratio computed by `DataManager.getCombatResult`: the floor of
the favourite's quotient, capped in magnitude at the NUMBER of odds columns
(`this.combatTables.odds.length`), not at the table's largest ratio. -/
def cappedOdds (t : CombatTables) (a d : Nat) : Int :=
  if d ≤ a then min ((a / d : Nat) : Int) (t.odds.length : Int)
  else max (-((d / a : Nat) : Int)) (-(t.odds.length : Int))

/-- `DataManager.getCombatResult(attackerStrength, defenderStrength,
dieRoll)`: `null` when the capped ratio has no odds column, when the die is
outside 1–6, or when the result row or cell is missing or empty. -/
def getCombatResult (t : CombatTables) (a d : Nat) (die : Int) :
    Option Outcome :=
  let ratio := cappedOdds t a d
  match t.odds.findIdx? (fun o => o = ratio) with
  | none => none
  | some oddsIndex =>
    if die < 1 ∨ 6 < die then none
    else
      match t.results.get? (die - 1).toNat with
      | none => none
      | some row =>
        match row.get? oddsIndex with
        | none => none
        | some cell => if cell = "" then none else some (parseResult cell)

/-- The lookup that the spec's words describe: the same table lookup but with
the ratio clamped INTO the table's domain (between the smallest and largest
odds column).  Used only to exhibit the divergence from the code. -/
def getCombatResultSpecClamped (t : CombatTables) (a d : Nat) (die : Int) :
    Option Outcome :=
  let ratio : Int :=
    if d ≤ a then ((a / d : Nat) : Int) else -((d / a : Nat) : Int)
  let lo := (t.odds.min?).getD ratio
  let hi := (t.odds.max?).getD ratio
  let clamped := min (max ratio lo) hi
  match t.odds.findIdx? (fun o => o = clamped) with
  | none => none
  | some oddsIndex =>
    if die < 1 ∨ 6 < die then none
    else
      match t.results.get? (die - 1).toNat with
      | none => none
      | some row =>
        match row.get? oddsIndex with
        | none => none
        | some cell => if cell = "" then none else some (parseResult cell)

/-- A combat table whose odds span 1:5 through 5:1, with six full rows. -/
def cexTable : CombatTables :=
  { odds := [-5, -4, -3, -2, -1, 1, 2, 3, 4, 5],
    results :=
      [["AE", "AE", "AR", "AR", "NE", "NE", "DR", "DR", "DD", "DE"],
       ["AE", "AE", "AR", "AR", "NE", "NE", "DR", "DR", "DD", "DE"],
       ["AE", "AE", "AR", "AR", "NE", "NE", "DR", "DR", "DD", "DE"],
       ["AE", "AE", "AR", "AR", "NE", "NE", "DR", "DR", "DD", "DE"],
       ["AE", "AE", "AR", "AR", "NE", "NE", "DR", "DR", "DD", "DE"],
       ["AE", "AE", "AR", "AR", "NE", "NE", "DR", "DR", "DD", "DE"]] }

theorem getNodeM_id {g : GameMap} {a : Nat} {n : GNode}
    (h : getNodeM g a = some n) : n.id = a := by
  have := List.find?_some h
  simpa using this

theorem pushAdjFn_id (i v : Nat) (n : GNode) : (pushAdjFn i v n).id = n.id := by
  unfold pushAdjFn; split <;> rfl

theorem getNodeM_pushAdj (g : GameMap) (i v a : Nat) :
    getNodeM (pushAdj g i v) a = (getNodeM g a).map (pushAdjFn i v) := by
  induction g with
  | nil => rfl
  | cons x xs ih =>
    by_cases hx : x.id = a
    · have hux : (pushAdjFn i v x).id = a := by rw [pushAdjFn_id]; exact hx
      rw [pushAdj, List.map_cons, getNodeM, List.find?_cons_of_pos _ (by simp [hux]),
          getNodeM, List.find?_cons_of_pos _ (by simp [hx])]
      rfl
    · have hux : ¬(pushAdjFn i v x).id = a := by rw [pushAdjFn_id]; exact hx
      rw [pushAdj, List.map_cons, getNodeM, List.find?_cons_of_neg _ (by simp [hux]),
          getNodeM, List.find?_cons_of_neg _ (by simp [hx])]
      exact ih

theorem present_pushAdj {g : GameMap} {i v a : Nat} :
    present (pushAdj g i v) a ↔ present g a := by
  unfold present
  rw [getNodeM_pushAdj]
  cases getNodeM g a <;> simp

theorem memAdj_pushAdj_of {g : GameMap} {i v a b : Nat}
    (h : memAdj g a b) : memAdj (pushAdj g i v) a b := by
  obtain ⟨n, hn, hb⟩ := h
  refine ⟨pushAdjFn i v n, ?_, ?_⟩
  · rw [getNodeM_pushAdj, hn]; rfl
  · unfold pushAdjFn; split
    · simpa using Or.inl hb
    · exact hb

theorem memAdj_pushAdj_cases {g : GameMap} {i v a b : Nat}
    (h : memAdj (pushAdj g i v) a b) : memAdj g a b ∨ (a = i ∧ b = v) := by
  obtain ⟨n, hn, hb⟩ := h
  rw [getNodeM_pushAdj] at hn
  cases hg : getNodeM g a with
  | none => rw [hg] at hn; simp at hn
  | some m =>
    rw [hg] at hn
    simp only [Option.map_some'] at hn
    obtain rfl := Option.some_injective _ hn
    unfold pushAdjFn at hb
    by_cases hmi : m.id = i
    · rw [if_pos hmi] at hb
      simp only [List.mem_append, List.mem_singleton] at hb
      rcases hb with hb | rfl
      · exact Or.inl ⟨m, hg, hb⟩
      · exact Or.inr ⟨(getNodeM_id hg).symm.trans hmi, rfl⟩
    · rw [if_neg hmi] at hb
      exact Or.inl ⟨m, hg, hb⟩

theorem memAdj_pushAdj_self {g : GameMap} {i v : Nat}
    (h : present g i) : memAdj (pushAdj g i v) i v := by
  rw [present, Option.isSome_iff_exists] at h
  obtain ⟨n, hn⟩ := h
  refine ⟨pushAdjFn i v n, ?_, ?_⟩
  · rw [getNodeM_pushAdj, hn]; rfl
  · unfold pushAdjFn
    rw [if_pos (getNodeM_id hn)]
    simp

theorem repairStep_none {i g x} (hx : getNodeM g x = none) :
    repairStep i g x = g := by
  unfold repairStep; rw [hx]

theorem repairStep_mem {i g x adjN} (hx : getNodeM g x = some adjN)
    (hm : i ∈ adjN.adjacentNodes) : repairStep i g x = g := by
  unfold repairStep; rw [hx]
  exact if_pos hm

theorem repairStep_push {i g x adjN} (hx : getNodeM g x = some adjN)
    (hm : i ∉ adjN.adjacentNodes) : repairStep i g x = pushAdj g x i := by
  unfold repairStep; rw [hx]
  exact if_neg hm

theorem repairNeighbors_cons (i : Nat) (g : GameMap) (x : Nat) (xs : List Nat) :
    repairNeighbors i g (x :: xs) = repairNeighbors i (repairStep i g x) xs := rfl

theorem repairNeighbors_mono {i : Nat} {l : List Nat} :
    ∀ {g a b}, memAdj g a b → memAdj (repairNeighbors i g l) a b := by
  induction l with
  | nil => intro g a b h; exact h
  | cons x xs ih =>
    intro g a b h
    rw [repairNeighbors_cons]
    cases hx : getNodeM g x with
    | none => rw [repairStep_none hx]; exact ih h
    | some adjN =>
      by_cases hmem : i ∈ adjN.adjacentNodes
      · rw [repairStep_mem hx hmem]; exact ih h
      · rw [repairStep_push hx hmem]; exact ih (memAdj_pushAdj_of h)

theorem repairNeighbors_present {i : Nat} {l : List Nat} :
    ∀ {g a}, present (repairNeighbors i g l) a ↔ present g a := by
  induction l with
  | nil => intro g a; exact Iff.rfl
  | cons x xs ih =>
    intro g a
    rw [repairNeighbors_cons]
    cases hx : getNodeM g x with
    | none => rw [repairStep_none hx]; exact ih
    | some adjN =>
      by_cases hmem : i ∈ adjN.adjacentNodes
      · rw [repairStep_mem hx hmem]; exact ih
      · rw [repairStep_push hx hmem, ih, present_pushAdj]

theorem repairNeighbors_cases {i : Nat} {l : List Nat} :
    ∀ {g a b}, memAdj (repairNeighbors i g l) a b →
      memAdj g a b ∨ (b = i ∧ a ∈ l) := by
  induction l with
  | nil => intro g a b h; exact Or.inl h
  | cons x xs ih =>
    intro g a b h
    rw [repairNeighbors_cons] at h
    cases hx : getNodeM g x with
    | none =>
      rw [repairStep_none hx] at h
      rcases ih h with h' | ⟨rfl, hmem⟩
      · exact Or.inl h'
      · exact Or.inr ⟨rfl, by simp [hmem]⟩
    | some adjN =>
      by_cases hmem : i ∈ adjN.adjacentNodes
      · rw [repairStep_mem hx hmem] at h
        rcases ih h with h' | ⟨rfl, hm⟩
        · exact Or.inl h'
        · exact Or.inr ⟨rfl, by simp [hm]⟩
      · rw [repairStep_push hx hmem] at h
        rcases ih h with h' | ⟨rfl, hm⟩
        · rcases memAdj_pushAdj_cases h' with h'' | ⟨rfl, rfl⟩
          · exact Or.inl h''
          · exact Or.inr ⟨rfl, by simp⟩
        · exact Or.inr ⟨rfl, by simp [hm]⟩

theorem repairNeighbors_guar {i : Nat} {l : List Nat} :
    ∀ {g a}, a ∈ l → present g a → memAdj (repairNeighbors i g l) a i := by
  induction l with
  | nil => intro g a h; exact absurd h (List.not_mem_nil a)
  | cons x xs ih =>
    intro g a hal hpres
    rw [repairNeighbors_cons]
    cases hx : getNodeM g x with
    | none =>
      rw [repairStep_none hx]
      rcases List.mem_cons.mp hal with rfl | hmem
      · rw [present, hx] at hpres; simp at hpres
      · exact ih hmem hpres
    | some adjN =>
      by_cases hmem : i ∈ adjN.adjacentNodes
      · rw [repairStep_mem hx hmem]
        rcases List.mem_cons.mp hal with rfl | hmem'
        · exact repairNeighbors_mono ⟨adjN, hx, hmem⟩
        · exact ih hmem' hpres
      · rw [repairStep_push hx hmem]
        rcases List.mem_cons.mp hal with rfl | hmem'
        · exact repairNeighbors_mono
            (memAdj_pushAdj_self (by rw [present, hx]; rfl))
        · exact ih hmem' (present_pushAdj.mpr hpres)

theorem processNode_none {g i} (hx : getNodeM g i = none) :
    processNode g i = g := by
  unfold processNode; rw [hx]

theorem processNode_some {g i node} (hx : getNodeM g i = some node) :
    processNode g i = repairNeighbors i g node.adjacentNodes := by
  unfold processNode; rw [hx]

theorem processNode_mono {g i a b} (h : memAdj g a b) :
    memAdj (processNode g i) a b := by
  cases hx : getNodeM g i with
  | none => rw [processNode_none hx]; exact h
  | some node => rw [processNode_some hx]; exact repairNeighbors_mono h

theorem processNode_present {g i a} :
    present (processNode g i) a ↔ present g a := by
  cases hx : getNodeM g i with
  | none => rw [processNode_none hx]
  | some node => rw [processNode_some hx]; exact repairNeighbors_present

theorem processNode_cases {g i a b} (h : memAdj (processNode g i) a b) :
    memAdj g a b ∨ (b = i ∧ memAdj g i a) := by
  cases hx : getNodeM g i with
  | none => rw [processNode_none hx] at h; exact Or.inl h
  | some node =>
    rw [processNode_some hx] at h
    rcases repairNeighbors_cases h with h' | ⟨rfl, hmem⟩
    · exact Or.inl h'
    · exact Or.inr ⟨rfl, node, hx, hmem⟩

theorem processNode_guar {g i a} (h : memAdj g i a) (hp : present g a) :
    memAdj (processNode g i) a i := by
  obtain ⟨node, hx, hmem⟩ := h
  rw [processNode_some hx]
  exact repairNeighbors_guar hmem hp

theorem runValidate_present {l : List Nat} :
    ∀ {g a}, present (l.foldl processNode g) a ↔ present g a := by
  induction l with
  | nil => intro g a; exact Iff.rfl
  | cons u l' ih =>
    intro g a
    rw [List.foldl_cons, ih, processNode_present]

theorem runValidate_symm {l : List Nat} :
    ∀ {g}, (∀ a b, present g a → present g b → memAdj g a b →
        memAdj g b a ∨ a ∈ l) →
      ∀ a b, present (l.foldl processNode g) a →
        present (l.foldl processNode g) b →
        memAdj (l.foldl processNode g) a b →
        memAdj (l.foldl processNode g) b a := by
  induction l with
  | nil =>
    intro g hinv a b hpa hpb h
    rcases hinv a b hpa hpb h with h' | h'
    · exact h'
    · exact absurd h' (List.not_mem_nil a)
  | cons u l' ih =>
    intro g hinv a b hpa hpb h
    rw [List.foldl_cons] at hpa hpb h ⊢
    refine ih ?_ a b hpa hpb h
    intro x y hpx hpy hxy
    rw [processNode_present] at hpx hpy
    rcases processNode_cases hxy with h' | ⟨rfl, h'⟩
    · rcases hinv x y hpx hpy h' with h'' | h''
      · exact Or.inl (processNode_mono h'')
      · rcases List.mem_cons.mp h'' with rfl | hmem
        · exact Or.inl (processNode_guar h' hpy)
        · exact Or.inr hmem
    · exact Or.inl (processNode_mono h')

theorem present_mem_ids {g : GameMap} {a : Nat} (h : present g a) :
    a ∈ g.map (·.id) := by
  rw [present, Option.isSome_iff_exists] at h
  obtain ⟨n, hn⟩ := h
  have hmem : n ∈ g := List.mem_of_find?_eq_some hn
  have : n.id = a := getNodeM_id hn
  subst this
  exact List.mem_map_of_mem _ hmem

/-- **C5.** After `MapManager.validateAdjacencies` completes, the neighbour
relation between nodes present in the map graph is symmetric: `A` lists `B`
as a neighbour if and only if `B` lists `A`. -/
theorem validateAdjacencies_symmetric (g : GameMap) (a b : Nat)
    (hpa : present (validateAdjacencies g) a)
    (hpb : present (validateAdjacencies g) b) :
    memAdj (validateAdjacencies g) a b ↔ memAdj (validateAdjacencies g) b a := by
  have hinv : ∀ x y, present g x → present g y → memAdj g x y →
      memAdj g y x ∨ x ∈ g.map (·.id) := by
    intro x y hpx _ _
    exact Or.inr (present_mem_ids hpx)
  constructor
  · exact runValidate_symm hinv a b hpa hpb
  · exact runValidate_symm hinv b a hpb hpa

/-- Witness for C5 at a concrete two-node map with a one-directional edge. -/
theorem validateAdjacencies_symmetric_witness :
    present (validateAdjacencies
        [⟨1, 0, 0, [2], .street⟩, ⟨2, 5, 5, [], .street⟩]) 1 ∧
    present (validateAdjacencies
        [⟨1, 0, 0, [2], .street⟩, ⟨2, 5, 5, [], .street⟩]) 2 ∧
    (memAdj (validateAdjacencies
        [⟨1, 0, 0, [2], .street⟩, ⟨2, 5, 5, [], .street⟩]) 1 2 ↔
     memAdj (validateAdjacencies
        [⟨1, 0, 0, [2], .street⟩, ⟨2, 5, 5, [], .street⟩]) 2 1) :=
  ⟨by decide, by decide,
    validateAdjacencies_symmetric _ 1 2 (by decide) (by decide)⟩

theorem baseMovementCost_pos (t : Terrain) : 1 ≤ baseMovementCost t := by
  cases t <;> simp [baseMovementCost]

/-- With a `null` unit, a movement cost is either the impassable sentinel or
a finite cost of at least one point; the `Infinity` fording sentinel is
reserved for infantry. -/
theorem calculateMovementCost_none (g : GameMap) (c t : Nat) :
    calculateMovementCost g c t none = .imp ∨
      ∃ k, calculateMovementCost g c t none = .fin k ∧ 1 ≤ k := by
  unfold calculateMovementCost
  cases getNodeM g c with
  | none => exact Or.inl rfl
  | some fromN =>
    cases getNodeM g t with
    | none => exact Or.inl rfl
    | some toN =>
      dsimp only
      by_cases hadj : t ∈ fromN.adjacentNodes
      · rw [if_pos hadj]
        have hspec : checkSpecialMovementCases fromN toN none = none := by
          unfold checkSpecialMovementCases
          simp [isBridgeOverRiver, isTunnelUnderRiver]
        rw [hspec]
        refine Or.inr ⟨baseMovementCost toN.terrainType, ?_, baseMovementCost_pos _⟩
        unfold getMovementCost
        simp [isPassable]
      · rw [if_neg hadj]; exact Or.inl rfl

theorem frnStep_zero_budget (g : GameMap) (startId c cc : Nat)
    (st : FrnState) (next : GNode) :
    frnStep g none startId 0 c 0 cc st next = st := by
  unfold frnStep
  rcases calculateMovementCost_none g c next.id with h | ⟨k, h, hk⟩
  · rw [h]
  · rw [h]
    dsimp only
    rw [if_pos (show k > 0 from hk)]

theorem frnVisit_zero_budget (g : GameMap) (startId c : Nat) (st : FrnState) :
    frnVisit g none startId 0 c 0 st = st := by
  unfold frnVisit
  generalize getAdjacentNodes g c = l
  induction l generalizing st with
  | nil => rfl
  | cons x xs ih =>
    rw [List.foldl_cons, frnStep_zero_budget]
    exact ih st

theorem frnLoop_nil {g u startId mp fuel} {st : FrnState}
    (h : st.queue = []) : frnLoop g u startId mp fuel st = st := by
  cases fuel with
  | zero => rfl
  | succ k => unfold frnLoop; rw [h]

theorem frnLoop_succ (g : GameMap) (u : Option UnitType) (startId mp fuel : Nat)
    (st : FrnState) :
    frnLoop g u startId mp (fuel + 1) st =
      match st.queue with
      | [] => st
      | (c, rem) :: rest =>
        frnLoop g u startId mp fuel
          (frnVisit g u startId mp c rem { st with queue := rest }) := rfl

/-- **C3 (amended).** With a `null` unit (as when the monster's reachable set
is computed without a unit object), a zero-point budget yields exactly the
starting node at cumulative cost zero.  (With a unit object supplied the code
adds further nodes at cost zero; see the counterexample.) -/
theorem findReachableNodes_zero_budget (g : GameMap) (startId : Nat)
    (startNode : GNode) (h : getNodeM g startId = some startNode) :
    findReachableNodes g startId 0 none =
      [⟨startId, 0, none, startNode.terrainType, none⟩] := by
  unfold findReachableNodes
  rw [h]
  dsimp only
  have h1 : (0 + 1) * (g.length + 1) + 1 = (g.length + 1) + 1 := by ring
  rw [h1, frnLoop_succ]
  dsimp only
  rw [frnVisit_zero_budget, frnLoop_nil rfl]
  rfl

/-- Witness for C3's amended theorem at a concrete one-node map. -/
theorem findReachableNodes_zero_budget_witness :
    getNodeM [⟨1, 0, 0, [], Terrain.street⟩] 1 = some ⟨1, 0, 0, [], .street⟩ ∧
    findReachableNodes [⟨1, 0, 0, [], Terrain.street⟩] 1 0 none =
      [⟨1, 0, none, .street, none⟩] :=
  ⟨by decide,
    findReachableNodes_zero_budget [⟨1, 0, 0, [], .street⟩] 1
      ⟨1, 0, 0, [], .street⟩ (by decide)⟩

/-- **C3 (counterexample).** On a two-street-node map, computing the
reachable set from node 1 with a zero-point budget for an infantry unit
returns node 2 as well (at cost zero, through the rule-5.15 all-points move),
not just the starting node: the claim fails for unit entity kinds. -/
theorem findReachableNodes_zero_budget_counterexample :
    (findReachableNodes
        [⟨1, 0, 0, [2], Terrain.street⟩, ⟨2, 9, 0, [1], Terrain.street⟩]
        1 0 (some .infantry)).map (fun r => (r.id, r.cost)) =
      [(1, 0), (2, 0)] := by decide

theorem lookupA_setA (m : List (Nat × Nat)) (k v j : Nat) :
    lookupA (setA m k v) j = if j = k then some v else lookupA m j := by
  induction m with
  | nil =>
    by_cases hj : j = k
    · simp [setA, lookupA, hj]
    · simp [setA, lookupA, hj, Ne.symm hj]
  | cons p rest ih =>
    obtain ⟨k', v'⟩ := p
    by_cases hk : k' = k
    · subst hk
      by_cases hj : j = k'
      · subst hj; simp [setA, lookupA]
      · simp [setA, lookupA, hj, Ne.symm hj]
    · by_cases hj : j = k'
      · subst hj
        simp only [setA, if_neg hk]
        simp [lookupA, hk]
      · simp only [setA, if_neg hk]
        simp only [lookupA, List.find?_cons] at ih ⊢
        rw [show (decide (k' = j)) = false by simp [Ne.symm hj]]
        simpa [lookupA] using ih

theorem mem_getAdjacentNodes_adjacent {g : GameMap} {c : Nat} {nb : GNode}
    (h : nb ∈ getAdjacentNodes g c) : Adjacent g c nb.id := by
  unfold getAdjacentNodes at h
  cases hc : getNodeM g c with
  | none => rw [hc] at h; simp at h
  | some cn =>
    rw [hc] at h
    obtain ⟨adjId, hmem, hfind⟩ := List.mem_filterMap.mp h
    have hid : nb.id = adjId := getNodeM_id hfind
    exact ⟨cn, nb, hc, hid ▸ hfind, hid ▸ hmem⟩

theorem chooseCurrent_mem {fS : List (Nat × FSVal)} {openSet : List Nat}
    (h : openSet ≠ []) : chooseCurrent fS openSet ∈ openSet := by
  unfold chooseCurrent
  cases openSet with
  | nil => exact absurd rfl h
  | cons x rest =>
    have key : ∀ (l : List Nat) (acc : Nat), acc ∈ x :: rest →
        (∀ y ∈ l, y ∈ x :: rest) →
        l.foldl (fun lowest nodeId =>
          match lookupP fS nodeId, lookupP fS lowest with
          | some a, some b => if fsLt a b then nodeId else lowest
          | _, _ => lowest) acc ∈ x :: rest := by
      intro l
      induction l with
      | nil => intro acc hacc _; exact hacc
      | cons y ys ih =>
        intro acc hacc hall
        rw [List.foldl_cons]
        refine ih _ ?_ (fun z hz => hall z (List.mem_cons_of_mem _ hz))
        cases lookupP fS y with
        | none => exact hacc
        | some a =>
          cases lookupP fS acc with
          | none => exact hacc
          | some b =>
            dsimp only
            split
            · exact hall y (List.mem_cons_self _ _)
            · exact hacc
    exact key (x :: rest) x (List.mem_cons_self _ _) (fun y hy => hy)

theorem fpStep_inv {g : GameMap} {hfn : GNode → GNode → Frac}
    {u : Option UnitType} {endNode : GNode} {s c : Nat} {st : FPState}
    {nb : GNode} (hst : StInv g s st) (hc : Reach g s c)
    (hadj : Adjacent g c nb.id) :
    StInv g s (fpStep g hfn u endNode c st nb) := by
  unfold fpStep
  split
  · exact hst
  rcases hmc : calculateMovementCost g c nb.id u with _ | n | _
  · exact hst
  all_goals {
    dsimp only
    split
    · refine ⟨?_, ?_⟩
      · intro n' c' h'
        rw [lookupA_setA] at h'
        split at h'
        · obtain rfl := Option.some_injective _ h'
          next heq => exact heq ▸ hadj
        · exact hst.1 n' c' h'
      · intro n' hn'
        dsimp only at hn'
        split at hn'
        · exact hst.2 n' hn'
        · rcases List.mem_append.mp hn' with h' | h'
          · exact hst.2 n' h'
          · obtain rfl := List.mem_singleton.mp h'
            exact Relation.ReflTransGen.tail hc hadj
    · exact hst
  }

theorem fpFold_inv {g : GameMap} {hfn : GNode → GNode → Frac}
    {u : Option UnitType} {endNode : GNode} {s c : Nat} :
    ∀ (l : List GNode) (st : FPState), StInv g s st →
      (∀ nb ∈ l, Adjacent g c nb.id) → Reach g s c →
      StInv g s (l.foldl (fpStep g hfn u endNode c) st) := by
  intro l
  induction l with
  | nil => intro st hst _ _; exact hst
  | cons nb rest ih =>
    intro st hst hall hc
    rw [List.foldl_cons]
    exact ih _ (fpStep_inv hst hc (hall nb (List.mem_cons_self _ _)))
      (fun y hy => hall y (List.mem_cons_of_mem _ hy)) hc

theorem fpVisit_inv {g : GameMap} {hfn : GNode → GNode → Frac}
    {u : Option UnitType} {endNode : GNode} {s c : Nat} {st : FPState}
    (hst : StInv g s st) (hc : Reach g s c) :
    StInv g s (fpVisit g hfn u endNode c st) := by
  unfold fpVisit
  exact fpFold_inv _ _
    ⟨hst.1, fun n hn => hst.2 n (List.mem_of_mem_erase hn)⟩
    (fun nb hnb => mem_getAdjacentNodes_adjacent hnb) hc

theorem rpGo_succ (cameFrom : List (Nat × Nat)) (k cur : Nat)
    (path vis : List Nat) :
    rpGo cameFrom (k + 1) cur path vis =
      match lookupA cameFrom cur with
      | none => path
      | some prev =>
        if prev ∈ vis then path
        else rpGo cameFrom k prev (prev :: path) (prev :: vis) := rfl

theorem rpGo_succ_none {cameFrom : List (Nat × Nat)} {k cur : Nat}
    {path vis : List Nat} (h : lookupA cameFrom cur = none) :
    rpGo cameFrom (k + 1) cur path vis = path := by
  rw [rpGo_succ, h]

theorem rpGo_succ_mem {cameFrom : List (Nat × Nat)} {k cur prev : Nat}
    {path vis : List Nat} (h : lookupA cameFrom cur = some prev)
    (hv : prev ∈ vis) :
    rpGo cameFrom (k + 1) cur path vis = path := by
  rw [rpGo_succ, h]
  exact if_pos hv

theorem rpGo_succ_step {cameFrom : List (Nat × Nat)} {k cur prev : Nat}
    {path vis : List Nat} (h : lookupA cameFrom cur = some prev)
    (hv : prev ∉ vis) :
    rpGo cameFrom (k + 1) cur path vis =
      rpGo cameFrom k prev (prev :: path) (prev :: vis) := by
  rw [rpGo_succ, h]
  exact if_neg hv

theorem rpGo_chain {g : GameMap} {cameFrom : List (Nat × Nat)}
    (hinv : ∀ n c, lookupA cameFrom n = some c → Adjacent g c n) :
    ∀ (fuel : Nat) (cur : Nat) (path vis : List Nat),
      path.head? = some cur → List.Chain' (Adjacent g) path →
      List.Chain' (Adjacent g) (rpGo cameFrom fuel cur path vis) := by
  intro fuel
  induction fuel with
  | zero => intro cur path vis _ hchain; exact hchain
  | succ k ih =>
    intro cur path vis hhead hchain
    cases hcf : lookupA cameFrom cur with
    | none => rw [rpGo_succ_none hcf]; exact hchain
    | some prev =>
      by_cases hv : prev ∈ vis
      · rw [rpGo_succ_mem hcf hv]; exact hchain
      · rw [rpGo_succ_step hcf hv]
        refine ih prev (prev :: path) (prev :: vis) rfl ?_
        rw [List.chain'_cons']
        refine ⟨?_, hchain⟩
        intro y hy
        rw [hhead, Option.mem_def, Option.some_inj] at hy
        subst hy
        exact hinv cur prev hcf

theorem reconstructPath_chain {g : GameMap} {cameFrom : List (Nat × Nat)}
    (hinv : ∀ n c, lookupA cameFrom n = some c → Adjacent g c n)
    (current : Nat) :
    List.Chain' (Adjacent g) (reconstructPath cameFrom current) :=
  rpGo_chain hinv 100 current [current] [current] rfl (by simp)

theorem fpLoop_succ (g : GameMap) (hfn : GNode → GNode → Frac)
    (u : Option UnitType) (endId : Nat) (endNode : GNode) (fuel : Nat)
    (st : FPState) :
    fpLoop g hfn u endId endNode (fuel + 1) st =
      if st.openSet = [] then []
      else if chooseCurrent st.fScore st.openSet = endId then
        reconstructPath st.cameFrom (chooseCurrent st.fScore st.openSet)
      else fpLoop g hfn u endId endNode fuel
        (fpVisit g hfn u endNode (chooseCurrent st.fScore st.openSet) st) := rfl

theorem fpLoop_succ_nil {g : GameMap} {hfn : GNode → GNode → Frac}
    {u : Option UnitType} {endId : Nat} {endNode : GNode} {fuel : Nat}
    {st : FPState} (h : st.openSet = []) :
    fpLoop g hfn u endId endNode (fuel + 1) st = [] := by
  rw [fpLoop_succ, if_pos h]

theorem fpLoop_succ_end {g : GameMap} {hfn : GNode → GNode → Frac}
    {u : Option UnitType} {endId : Nat} {endNode : GNode} {fuel : Nat}
    {st : FPState} (h : st.openSet ≠ [])
    (hend : chooseCurrent st.fScore st.openSet = endId) :
    fpLoop g hfn u endId endNode (fuel + 1) st =
      reconstructPath st.cameFrom (chooseCurrent st.fScore st.openSet) := by
  rw [fpLoop_succ, if_neg h, if_pos hend]

theorem fpLoop_succ_go {g : GameMap} {hfn : GNode → GNode → Frac}
    {u : Option UnitType} {endId : Nat} {endNode : GNode} {fuel : Nat}
    {st : FPState} (h : st.openSet ≠ [])
    (hend : ¬chooseCurrent st.fScore st.openSet = endId) :
    fpLoop g hfn u endId endNode (fuel + 1) st =
      fpLoop g hfn u endId endNode fuel
        (fpVisit g hfn u endNode (chooseCurrent st.fScore st.openSet) st) := by
  rw [fpLoop_succ, if_neg h, if_neg hend]

theorem fpLoop_sound {g : GameMap} {hfn : GNode → GNode → Frac}
    {u : Option UnitType} {endId : Nat} {endNode : GNode} {s : Nat} :
    ∀ (fuel : Nat) (st : FPState), StInv g s st →
      List.Chain' (Adjacent g) (fpLoop g hfn u endId endNode fuel st) ∧
      (fpLoop g hfn u endId endNode fuel st ≠ [] → Reach g s endId) := by
  intro fuel
  induction fuel with
  | zero => intro st _; exact ⟨List.chain'_nil, fun h => absurd rfl h⟩
  | succ k ih =>
    intro st hst
    by_cases hos : st.openSet = []
    · rw [fpLoop_succ_nil hos]
      exact ⟨List.chain'_nil, fun h => absurd rfl h⟩
    · by_cases hend : chooseCurrent st.fScore st.openSet = endId
      · rw [fpLoop_succ_end hos hend]
        refine ⟨reconstructPath_chain hst.1 _, fun _ => ?_⟩
        exact hend ▸ hst.2 _ (chooseCurrent_mem hos)
      · rw [fpLoop_succ_go hos hend]
        exact ih _ (fpVisit_inv hst (hst.2 _ (chooseCurrent_mem hos)))

/-- **C4 (amended).** `findPath` takes no movement budget, so no budget bound
is enforced; what does hold is that every consecutive pair of node ids in a
returned path is adjacent in the map graph, and that a non-empty result is
produced only when the target is graph-reachable from the start — so an empty
result is returned whenever no path exists.  Quantified over every heuristic
`hfn`, which covers the source's float-valued straight-line heuristic. -/
theorem findPath_adjacent_and_connected (g : GameMap)
    (hfn : GNode → GNode → Frac) (u : Option UnitType) (s e : Nat) :
    List.Chain' (Adjacent g) (findPath g hfn u s e) ∧
    (findPath g hfn u s e ≠ [] → Reach g s e) := by
  unfold findPath
  cases h1 : getNodeM g s with
  | none => exact ⟨List.chain'_nil, fun h => absurd rfl h⟩
  | some sn =>
    cases h2 : getNodeM g e with
    | none => exact ⟨List.chain'_nil, fun h => absurd rfl h⟩
    | some en =>
      dsimp only
      by_cases hse : s = e
      · rw [if_pos hse]
        exact ⟨List.chain'_singleton _, fun _ => hse ▸ Relation.ReflTransGen.refl⟩
      · rw [if_neg hse]
        refine fpLoop_sound 1000 _ ⟨?_, ?_⟩
        · intro n c h
          simp [lookupA] at h
        · intro n hn
          obtain rfl := List.mem_singleton.mp hn
          exact Relation.ReflTransGen.refl

/-- Witness for C4's amended theorem on the concrete three-node line. -/
theorem findPath_adjacent_and_connected_witness :
    List.Chain' (Adjacent mapLine3)
      (findPath mapLine3 (fun _ _ => ⟨0, 1⟩) (some .infantry) 1 3) ∧
    Reach mapLine3 1 3 :=
  ⟨(findPath_adjacent_and_connected mapLine3 (fun _ _ => ⟨0, 1⟩)
      (some .infantry) 1 3).1,
   (findPath_adjacent_and_connected mapLine3 (fun _ _ => ⟨0, 1⟩)
      (some .infantry) 1 3).2 (by decide)⟩

/-- **C4 (counterexample).** `findPath` has no movement-budget parameter: on
the three-node line, an infantry unit with only 1 movement point remaining is
still given the full path `[1, 2, 3]` of cumulative cost 2 > 1, so "cumulative
cost never exceeds the supplied movement budget" fails. -/
theorem findPath_budget_counterexample :
    findPath mapLine3 (fun _ _ => ⟨0, 1⟩) (some .infantry) 1 3 = [1, 2, 3] ∧
    pathCost mapLine3 (some .infantry) [1, 2, 3] = some 2 ∧ ¬(2 ≤ 1) := by
  refine ⟨by decide, by decide, by decide⟩

/-- **C1 (counterexample).** From the start of the destruction sub-phase,
three completed but unsuccessful destruction attempts leave the 3-action
counter untouched, and a fourth attempt still passes `canPerformAction` —
attempts are not limited to 3 and nothing rejects the fourth one (the
codebase has no RuleViolation error and no point-pool tracking at all). -/
theorem destruction_fourth_attempt_counterexample :
    (onDestructionCompleted (onDestructionCompleted
        (onDestructionCompleted destructionPhaseStart false) false)
        false).actionsRemaining.destruction = .num 3 ∧
    canPerformAction
      (onDestructionCompleted (onDestructionCompleted
        (onDestructionCompleted destructionPhaseStart false) false) false)
      .destruction = true := by
  refine ⟨by decide, by decide⟩

/-- **C1 (amended).** Only successful destruction attempts consume one of the
3 per-turn destruction actions; after three successful attempts the counter
is exhausted, a further destruction action is rejected by `canPerformAction`
returning `false`, and `consumeAction` then leaves the state unchanged. -/
theorem destruction_success_capped (s : TurnState)
    (hsub : s.currentSubPhase = .destruction)
    (hcnt : s.actionsRemaining.destruction = .num 3) :
    canPerformAction
      (onDestructionCompleted (onDestructionCompleted
        (onDestructionCompleted s true) true) true) .destruction = false ∧
    consumeAction
      (onDestructionCompleted (onDestructionCompleted
        (onDestructionCompleted s true) true) true) .destruction =
      (false,
        onDestructionCompleted (onDestructionCompleted
          (onDestructionCompleted s true) true) true) ∧
    (onDestructionCompleted (onDestructionCompleted
        (onDestructionCompleted s true) true)
        true).actionsRemaining.destruction = .num 0 := by
  obtain ⟨t, p, sub, ⟨m, c, d, f⟩, r⟩ := s
  simp only at hsub hcnt
  subst hsub
  subst hcnt
  refine ⟨rfl, rfl, rfl⟩

/-- Witness for C1's amended theorem at the reachable destruction-phase
state. -/
theorem destruction_success_capped_witness :
    canPerformAction
      (onDestructionCompleted (onDestructionCompleted
        (onDestructionCompleted destructionPhaseStart true) true) true)
      .destruction = false ∧
    consumeAction
      (onDestructionCompleted (onDestructionCompleted
        (onDestructionCompleted destructionPhaseStart true) true) true)
      .destruction =
      (false,
        onDestructionCompleted (onDestructionCompleted
          (onDestructionCompleted destructionPhaseStart true) true) true) ∧
    (onDestructionCompleted (onDestructionCompleted
        (onDestructionCompleted destructionPhaseStart true) true)
        true).actionsRemaining.destruction = .num 0 :=
  destruction_success_capped destructionPhaseStart (by decide) (by decide)

/-- **C6 (counterexample).** With the turn count past the maximum and equal
victory-point totals, the code declares a human win, not a draw — no draw
outcome exists anywhere in `checkVictoryConditions`/`endGame`. -/
theorem checkVictoryConditions_tie_counterexample :
    checkVictoryConditions
        ⟨10, 10, 100, 20, 21, 1, [.human]⟩ =
      some (.human, .maxTurnsReached) ∧
    (⟨10, 10, 100, 20, 21, 1, [.human]⟩ : VState).vpMonster =
      (⟨10, 10, 100, 20, 21, 1, [.human]⟩ : VState).vpHuman := by
  refine ⟨by decide, by decide⟩

/-- **C6 (amended).** The game ends exactly when one of the four conditions
holds, checked in priority order: monster victory points at or above the goal
(monster win, even at exact equality — never a draw); zero registered
monsters (human win; the monster registry, not a defense-strength test, is
consulted); zero human-faction units (monster win); turn count strictly above
the maximum, in which case the monster wins only with strictly more victory
points and the human wins otherwise — equal totals give a human win, not a
draw. -/
theorem checkVictoryConditions_amended (s : VState) :
    ((checkVictoryConditions s).isSome ↔
      (s.victoryPointGoal ≤ s.vpMonster ∨ s.monstersCount = 0 ∨
       getHumanUnitCount s = 0 ∨ s.maxTurns < s.currentTurn)) ∧
    (s.vpMonster < s.victoryPointGoal → s.monstersCount ≠ 0 →
      getHumanUnitCount s ≠ 0 → s.maxTurns < s.currentTurn →
      checkVictoryConditions s =
        some (if s.vpHuman < s.vpMonster then .monster else .human,
              .maxTurnsReached)) ∧
    (s.victoryPointGoal ≤ s.vpMonster →
      checkVictoryConditions s = some (.monster, .victoryPoints)) := by
  unfold checkVictoryConditions
  refine ⟨?_, ?_, ?_⟩
  · split_ifs with h1 h2 h3 h4 <;> simp_all
  · intro h1 h2 h3 h4
    rw [if_neg (by omega), if_neg h2, if_neg h3, if_pos (by omega)]
  · intro h1
    rw [if_pos (by omega)]

/-- Witness for C6's amended theorem at a concrete state: turn past the
maximum with equal victory points gives the human the win. -/
theorem checkVictoryConditions_amended_witness :
    checkVictoryConditions ⟨10, 10, 100, 20, 21, 1, [.human]⟩ =
      some (if (10 : Nat) < 10 then .monster else .human, .maxTurnsReached) :=
  (checkVictoryConditions_amended ⟨10, 10, 100, 20, 21, 1, [.human]⟩).2.1
    (by decide) (by decide) (by decide) (by decide)

/-- **C7 (counterexample).** The retreat filter only excludes rubble and
high-building terrain (plus rivers for non-waterborne units): a monster is
retreated into an adjacent low building even though low buildings are
impassable to monsters, and a monster with no eligible node is destroyed,
not damaged-in-place. -/
theorem retreatUnit_counterexample :
    retreatUnit [⟨1, 0, 0, [2], .street⟩, ⟨2, 9, 0, [1], .lowBuilding⟩]
        (fun _ => 0) (fun _ => 0) ⟨true, 1, []⟩ ⟨0, 1⟩ = .movedTo 2 ∧
    isPassable .lowBuilding (some .monster) = false ∧
    retreatUnit [⟨1, 0, 0, [2], .street⟩, ⟨2, 9, 0, [1], .rubble⟩]
        (fun _ => 0) (fun _ => 0) ⟨true, 1, []⟩ ⟨0, 1⟩ = .eliminated := by
  refine ⟨by decide, by decide, by decide⟩

/-- **C7 (amended).** A forced retreat picks the eligible neighbour at index
`⌊rand · length⌋` (uniform under a uniform `rand`), where eligible means: the
node exists, its terrain is neither rubble nor high building (unit-specific
impassability and stacking limits are not consulted), rivers only for
`waterOnly` units, and the opposing faction is absent; with no eligible
neighbour the entity is destroyed regardless of faction. -/
theorem retreatUnit_spec (g : GameMap) (uc mc : Nat → Nat) (e : REntity)
    (rand : Frac) (cur : GNode) (hcur : getNodeM g e.currentNodeId = some cur)
    (hd : 0 < rand.den) (h0 : 0 ≤ rand.num) (hlt : rand.num < rand.den) :
    (retreatEligible g uc mc e = [] →
      retreatUnit g uc mc e rand = .eliminated) ∧
    (∀ node ∈ retreatEligible g uc mc e,
      node.terrainType ≠ .rubble ∧ node.terrainType ≠ .highBuilding ∧
      (node.terrainType = .river →
        e.specialAbilities.contains .waterOnly = true) ∧
      (e.isMonster = true → uc node.id = 0) ∧
      (e.isMonster = false → mc node.id = 0)) ∧
    (retreatEligible g uc mc e ≠ [] →
      ∃ node ∈ retreatEligible g uc mc e,
        retreatUnit g uc mc e rand = .movedTo node.id) := by
  refine ⟨?_, ?_, ?_⟩
  · intro hemp
    unfold retreatUnit
    rw [hcur, hemp]
    rfl
  · intro node hnode
    unfold retreatEligible at hnode
    rw [hcur] at hnode
    have hfilt := List.of_mem_filter hnode
    simp only [Bool.and_eq_true, Bool.not_eq_true', Bool.or_eq_false_iff,
      decide_eq_false_iff_not, Bool.and_eq_false_iff] at hfilt
    obtain ⟨⟨h1, h2⟩, h3⟩ := hfilt
    refine ⟨h1.1, h1.2, ?_, ?_, ?_⟩
    · intro hriv
      rcases h2 with h2 | h2
      · exact absurd hriv (by simpa using h2)
      · simpa using h2
    · intro hm
      rw [hm] at h3
      simpa using h3
    · intro hm
      rw [hm] at h3
      simpa using h3
  · intro hne
    unfold retreatUnit
    rw [hcur]
    dsimp only
    have hlen : 0 < (retreatEligible g uc mc e).length :=
      List.length_pos.mpr hne
    have hif : (retreatEligible g uc mc e).isEmpty = false := by
      cases hE : retreatEligible g uc mc e with
      | nil => exact absurd hE hne
      | cons a l => rfl
    rw [if_neg (by rw [hif]; exact Bool.false_ne_true)]
    set len : Int := ((retreatEligible g uc mc e).length : Int) with hlendef
    have hq0 : 0 ≤ (rand.num * len) / rand.den :=
      Int.ediv_nonneg (by positivity) (le_of_lt hd)
    have hql : (rand.num * len) / rand.den < len := by
      rw [Int.ediv_lt_iff_lt_mul hd]
      have : rand.num * len < rand.den * len := by
        apply mul_lt_mul_of_pos_right hlt
        simpa [hlendef] using hlen
      linarith [this]
    have hidx : ((rand.num * len) / rand.den).toNat <
        (retreatEligible g uc mc e).length := by
      omega
    refine ⟨(retreatEligible g uc mc e).get
      ⟨((rand.num * len) / rand.den).toNat, hidx⟩, List.get_mem _ _ _, ?_⟩
    rw [List.get?_eq_get hidx]

/-- Witness for C7's amended theorem: a human unit retreating from node 1
with one eligible street neighbour is moved to it. -/
theorem retreatUnit_spec_witness :
    ∃ node ∈ retreatEligible
        [⟨1, 0, 0, [2], .street⟩, ⟨2, 9, 0, [1], .street⟩]
        (fun _ => 0) (fun _ => 0) ⟨false, 1, []⟩,
      retreatUnit [⟨1, 0, 0, [2], .street⟩, ⟨2, 9, 0, [1], .street⟩]
        (fun _ => 0) (fun _ => 0) ⟨false, 1, []⟩ ⟨0, 1⟩ =
        .movedTo node.id :=
  (retreatUnit_spec [⟨1, 0, 0, [2], .street⟩, ⟨2, 9, 0, [1], .street⟩]
      (fun _ => 0) (fun _ => 0) ⟨false, 1, []⟩ ⟨0, 1⟩
      ⟨1, 0, 0, [2], .street⟩ (by decide) (by decide) (by decide)
      (by decide)).2.2 (by decide)

/-- **C8.** The constructor clamps the intensity into {1,2,3};
`increaseIntensity` never lowers it and keeps it at most 3; an extinguish
whose amount is at least the current intensity removes the marker (`none`),
and a smaller amount lowers the intensity by exactly that amount, keeping it
at least 1. -/
theorem fireMarker_intensity_invariants :
    (∀ i : Int, 1 ≤ clampIntensity i ∧ clampIntensity i ≤ 3) ∧
    (∀ n : Nat, 1 ≤ n → n ≤ 3 →
      n ≤ (increaseIntensity n).1 ∧ 1 ≤ (increaseIntensity n).1 ∧
      (increaseIntensity n).1 ≤ 3) ∧
    (∀ n amount : Nat, 1 ≤ n →
      (n ≤ amount → extinguish amount n = none) ∧
      (amount < n → extinguish amount n = some (n - amount) ∧
        1 ≤ n - amount)) := by
  refine ⟨?_, ?_, ?_⟩
  · intro i
    unfold clampIntensity
    omega
  · intro n h1 h3
    unfold increaseIntensity
    split <;> constructor <;> simp <;> omega
  · intro n amount h1
    constructor
    · intro h
      unfold extinguish
      rw [if_pos h]
    · intro h
      unfold extinguish
      rw [if_neg (by omega)]
      exact ⟨rfl, by omega⟩

/-- Witness for C8 at concrete intensities. -/
theorem fireMarker_intensity_invariants_witness :
    (1 ≤ clampIntensity 7 ∧ clampIntensity 7 ≤ 3) ∧
    (2 ≤ (increaseIntensity 2).1 ∧ 1 ≤ (increaseIntensity 2).1 ∧
      (increaseIntensity 2).1 ≤ 3) ∧
    (extinguish 3 2 = none ∧
      (extinguish 1 3 = some (3 - 1) ∧ 1 ≤ 3 - 1)) :=
  ⟨fireMarker_intensity_invariants.1 7,
   fireMarker_intensity_invariants.2.1 2 (by decide) (by decide),
   ⟨(fireMarker_intensity_invariants.2.2 2 3 (by decide)).1 (by decide),
    (fireMarker_intensity_invariants.2.2 3 1 (by decide)).2 (by decide)⟩⟩

/-- **C2 (counterexample).** On a table whose domain is 1:5 through 5:1, an
attack at 7:1 odds is NOT clamped into the domain: the code caps the ratio at
the column count (10), fails to find a 7 column, and returns `null`, whereas
clamping to the domain (as the claim states) would return the 5:1 cell. -/
theorem combat_odds_clamp_counterexample :
    getCombatResult cexTable 7 1 6 = none ∧
    getCombatResultSpecClamped cexTable 7 1 6 =
      some ⟨.eliminated, .cnone⟩ := by
  refine ⟨by decide, by decide⟩

theorem findIdx?_eq_none_of_not_mem {l : List Int} {r : Int} (h : r ∉ l) :
    l.findIdx? (fun o => o = r) = none := by
  rw [List.findIdx?_eq_none_iff]
  intro x hx
  simp only [decide_eq_false_iff_not]
  exact fun he => h (he ▸ hx)

/-- **C2 (amended).** The lookup path computes the odds ratio as the floor of
the favourite's quotient (negated, hence rounded in the defender's favour,
when the attacker is weaker), but caps its magnitude at the NUMBER of odds
columns rather than clamping into the table's domain; the lookup succeeds
exactly when the capped ratio is literally an odds column, the die is within
1–6, and the addressed row and cell exist and are non-empty — otherwise it
returns `null`. -/
theorem getCombatResult_amended (t : CombatTables) (a d : Nat) (die : Int)
    (_ha : 1 ≤ a) (_hd : 1 ≤ d) :
    ((getCombatResult t a d die).isSome ↔
      ∃ idx, t.odds.findIdx? (fun o => o = cappedOdds t a d) = some idx ∧
        1 ≤ die ∧ die ≤ 6 ∧
        ∃ row, t.results.get? (die - 1).toNat = some row ∧
          ∃ cell, row.get? idx = some cell ∧ cell ≠ "") ∧
    (d ≤ a →
      cappedOdds t a d = min ((a / d : Nat) : Int) (t.odds.length : Int)) ∧
    (a < d →
      cappedOdds t a d =
        max (-((d / a : Nat) : Int)) (-(t.odds.length : Int))) := by
  refine ⟨?_, ?_, ?_⟩
  · unfold getCombatResult
    cases hidx : t.odds.findIdx? (fun o => o = cappedOdds t a d) with
    | none => simp [hidx]
    | some i =>
      simp only [hidx]
      by_cases hdie : die < 1 ∨ 6 < die
      · rw [if_pos hdie]
        simp only [Option.isSome_none, Bool.false_eq_true, false_iff]
        rintro ⟨idx, _, h1, h6, _⟩
        omega
      · rw [if_neg hdie]
        push_neg at hdie
        cases hrow : t.results.get? (die - 1).toNat with
        | none =>
          simp only [hrow, Option.isSome_none, Bool.false_eq_true, false_iff]
          rintro ⟨idx, hidx', _, _, row, hrow', _⟩
          cases hrow'
        | some row =>
          simp only [hrow]
          cases hcell : row.get? i with
          | none =>
            simp only [hcell, Option.isSome_none, Bool.false_eq_true, false_iff]
            rintro ⟨idx, hidx', _, _, row', hrow', cell, hcell', _⟩
            obtain rfl := Option.some_injective _ hidx'
            obtain rfl := Option.some_injective _ hrow'
            rw [hcell] at hcell'
            cases hcell'
          | some cell =>
            simp only [hcell]
            by_cases hc : cell = ""
            · rw [if_pos hc]
              simp only [Option.isSome_none, Bool.false_eq_true, false_iff]
              rintro ⟨idx, hidx', _, _, row', hrow', cell', hcell', hne⟩
              obtain rfl := Option.some_injective _ hidx'
              obtain rfl := Option.some_injective _ hrow'
              rw [hcell] at hcell'
              obtain rfl := Option.some_injective _ hcell'
              exact hne hc
            · rw [if_neg hc]
              simp only [Option.isSome_some, true_iff]
              exact ⟨i, rfl, hdie.1, hdie.2, row, rfl, cell, hcell, hc⟩
  · intro h
    unfold cappedOdds
    rw [if_pos h]
  · intro h
    unfold cappedOdds
    rw [if_neg (by omega)]

/-- Witness for C2's amended theorem at 5:1 odds on the concrete table. -/
theorem getCombatResult_amended_witness :
    ((getCombatResult cexTable 5 1 6).isSome ↔
      ∃ idx, cexTable.odds.findIdx?
          (fun o => o = cappedOdds cexTable 5 1) = some idx ∧
        1 ≤ (6 : Int) ∧ (6 : Int) ≤ 6 ∧
        ∃ row, cexTable.results.get? ((6 : Int) - 1).toNat = some row ∧
          ∃ cell, row.get? idx = some cell ∧ cell ≠ "") ∧
    ((1 : Nat) ≤ 5 →
      cappedOdds cexTable 5 1 =
        min ((5 / 1 : Nat) : Int) (cexTable.odds.length : Int)) ∧
    ((5 : Nat) < 1 →
      cappedOdds cexTable 5 1 =
        max (-((1 / 5 : Nat) : Int)) (-(cexTable.odds.length : Int))) :=
  getCombatResult_amended cexTable 5 1 6 (by decide) (by decide)

/-- **C10.** Once tables are loaded, the lookup is total for positive
strengths: it returns a parsed outcome or `null`, never throwing; in
particular it returns `null` whenever the die lies outside 1–6 or the capped
odds ratio has no column in the table. -/
theorem getCombatResult_total (t : CombatTables) (a d : Nat) (die : Int)
    (_ha : 1 ≤ a) (_hd : 1 ≤ d) :
    (getCombatResult t a d die = none ∨
      ∃ o, getCombatResult t a d die = some o) ∧
    ((die < 1 ∨ 6 < die) → getCombatResult t a d die = none) ∧
    (cappedOdds t a d ∉ t.odds → getCombatResult t a d die = none) := by
  refine ⟨?_, ?_, ?_⟩
  · cases h : getCombatResult t a d die with
    | none => exact Or.inl rfl
    | some o => exact Or.inr ⟨o, rfl⟩
  · intro hdie
    unfold getCombatResult
    cases hidx : t.odds.findIdx? (fun o => o = cappedOdds t a d) with
    | none => simp [hidx]
    | some i =>
      simp only [hidx]
      rw [if_pos hdie]
  · intro hmem
    unfold getCombatResult
    simp only [findIdx?_eq_none_of_not_mem hmem]

/-- Witness for C10 at a die value of 7 on the concrete table. -/
theorem getCombatResult_total_witness :
    (getCombatResult cexTable 3 1 7 = none ∨
      ∃ o, getCombatResult cexTable 3 1 7 = some o) ∧
    (((7 : Int) < 1 ∨ 6 < (7 : Int)) → getCombatResult cexTable 3 1 7 = none) ∧
    (cappedOdds cexTable 3 1 ∉ cexTable.odds →
      getCombatResult cexTable 3 1 7 = none) :=
  getCombatResult_total cexTable 3 1 7 (by decide) (by decide)

end CityEater
